import Mathlib

/-!
Verification of the trading-session core of `trading_core.py`.

The development shallowly embeds the pure data and control logic of
`backend/app/trading/trading_core.py`:

* timestamps are modelled as `Int` microseconds since midnight of the
  session day (all datetimes handled by the session are intraday and
  anchored to the 09:15 market-open origin of the current day);
* prices and indicator values are modelled as `ℚ` (the comparison logic
  of the strategy is what the program relies on, never rounding);
* the two `deque(maxlen=2000)` rolling buffers are modelled as `List
  Candle` with explicit eviction on overflow;
* the outputs of the external libraries invoked by the session
  (`ta` indicator computations, `pandas` resampling) are passed in as
  function parameters of the model, since those libraries are not part
  of this repository; every branch and guard applied to their outputs
  is embedded faithfully;
* the side-effecting broker and audit calls are recorded in an explicit
  trace of `Effect` values, so that ordering and occurrence claims can
  be stated about them.
-/

/-- Microseconds in one minute. -/
def usPerMinute : Int := 60 * 1000000

/-- Market open, 09:15 local exchange time (`market_open` in the source),
as microseconds since midnight. -/
def marketOpenUs : Int := (9 * 60 + 15) * usPerMinute

/-- Market close threshold, 15:31 (`market_close` in the source). -/
def marketCloseUs : Int := (15 * 60 + 31) * usPerMinute

/-- Embedding of `datetime.replace(microsecond=0)`: drop the sub-second
microsecond component of a timestamp. -/
def truncateMicroseconds (t : Int) : Int := (t / 1000000) * 1000000

/-- Embedding of `_round_to_next_interval` (trading_core.py lines 44-57).
The source's locals are inlined: `base` is `marketOpenUs` (09:15 of the
reference day), `elapsed = now - base`, and `intervals_passed` is the
floor division of `elapsed` by the interval length in microseconds.
Before the origin the origin itself is returned; otherwise the end of the
next `intervalMinutes`-minute interval counted from the origin; both
results pass through `replace(microsecond=0)`. -/
def roundToNextInterval (intervalMinutes : Nat) (now : Int) : Int :=
  if now - marketOpenUs < 0 then
    truncateMicroseconds marketOpenUs
  else
    truncateMicroseconds
      (marketOpenUs +
        ((now - marketOpenUs) / ((intervalMinutes : Int) * 60 * 1000000) + 1) *
          ((intervalMinutes : Int) * usPerMinute))

/-- One OHLC candle (`{'datetime': ..., 'open': ..., 'high': ..., 'low': ...,
'close': ...}` dictionaries appended to the buffers). -/
structure Candle where
  datetime : Int
  open_ : ℚ
  high : ℚ
  low : ℚ
  close : ℚ
deriving DecidableEq, Repr

/-- Embedding of `deque(maxlen=2000).append`: append on the right, evicting
from the left when the capacity of 2000 is exceeded. -/
def dequeAppend (buf : List Candle) (c : Candle) : List Candle :=
  let b := buf ++ [c]
  if 2000 < b.length then b.drop (b.length - 2000) else b

/-- Embedding of the unconditional population loops of
`start_trading_session` (lines 220-228, 235-243 and 286-294): every row of
the fetched frame is appended to the buffer with no timestamp guard. -/
def populate (buf : List Candle) (rows : List Candle) : List Candle :=
  rows.foldl dequeAppend buf

/-- Embedding of the guarded 1-minute append of the live loop (lines
330-335): the candle is appended only when the buffer is empty or the
candle's timestamp is strictly greater than the tail's. -/
def guardedAppend (buf : List Candle) (c : Candle) : List Candle :=
  match buf.getLast? with
  | none => dequeAppend buf c
  | some last => if last.datetime < c.datetime then dequeAppend buf c else buf

/-- Timestamps of a buffer are strictly increasing from head to tail. -/
def StrictlyIncreasing (buf : List Candle) : Prop :=
  buf.Pairwise (fun a b => a.datetime < b.datetime)

instance (buf : List Candle) : Decidable (StrictlyIncreasing buf) := by
  unfold StrictlyIncreasing; infer_instance

/-- One row of the indicator frame after the pipeline of lines 374-384
(or 252-258): the columns read by the signal logic. -/
structure IndRow where
  adx : ℚ
  adxema : ℚ
  willr : ℚ
  supertrend : ℚ
  macd : ℚ
  macd_signal : ℚ
  close : ℚ
deriving DecidableEq, Repr

/-- One broker position as consumed by the session (quantity, trading
symbol, instrument token). -/
structure Position where
  quantity : Int
  tradingsymbol : String
  instrument_token : String
deriving DecidableEq, Repr

/-- Result of `get_option_instrument_key`. -/
structure OptionDetails where
  instrument_key : String
  lot_size : Nat
  strike : ℚ
deriving DecidableEq, Repr

/-- Embedding of `buy_signal` (lines 402-403). -/
def buySignal (r : IndRow) : Prop :=
  r.adx > r.adxema ∧ r.willr > -30 ∧ r.supertrend < r.close ∧ r.macd > r.macd_signal

instance (r : IndRow) : Decidable (buySignal r) := by
  unfold buySignal; infer_instance

/-- Embedding of `sell_signal` (lines 404-405). -/
def sellSignal (r : IndRow) : Prop :=
  r.adx > r.adxema ∧ r.willr < -70 ∧ r.supertrend > r.close ∧ r.macd < r.macd_signal

instance (r : IndRow) : Decidable (sellSignal r) := by
  unfold sellSignal; infer_instance

/-- Embedding of `has_ce_position` (lines 410-411): some fetched position
has positive quantity and a CE-suffixed trading symbol.  Python's
`s.endswith("CE")` coincides with `s[-2:] == "CE"`, i.e. `takeRight 2`. -/
def hasCePosition (positions : List Position) : Prop :=
  ∃ p ∈ positions, 0 < p.quantity ∧ p.tradingsymbol.takeRight 2 = "CE"

instance (positions : List Position) : Decidable (hasCePosition positions) := by
  unfold hasCePosition; infer_instance

/-- Embedding of `has_pe_position` (lines 433-434). -/
def hasPePosition (positions : List Position) : Prop :=
  ∃ p ∈ positions, 0 < p.quantity ∧ p.tradingsymbol.takeRight 2 = "PE"

instance (positions : List Position) : Decidable (hasPePosition positions) := by
  unfold hasPePosition; infer_instance

/-- The three-disjunct indicator condition of `exit_ce` (lines 464-468). -/
def exitCeCond (r : IndRow) : Prop :=
  (r.willr < -70 ∧ r.supertrend > r.close) ∨
  (r.willr < -70 ∧ r.macd < r.macd_signal) ∨
  (r.supertrend > r.close ∧ r.macd < r.macd_signal)

instance (r : IndRow) : Decidable (exitCeCond r) := by
  unfold exitCeCond; infer_instance

/-- The three-disjunct indicator condition of `exit_pe` (lines 469-473).
The third disjunct pairs `supertrend < close` with `macd < macd_signal`,
exactly as in the source. -/
def exitPeCond (r : IndRow) : Prop :=
  (r.willr > -30 ∧ r.supertrend < r.close) ∨
  (r.willr > -30 ∧ r.macd > r.macd_signal) ∨
  (r.supertrend < r.close ∧ r.macd < r.macd_signal)

instance (r : IndRow) : Decidable (exitPeCond r) := by
  unfold exitPeCond; infer_instance

/-- Embedding of the per-position exit decision of the loop at lines
457-475: `option_type = tradingsymbol[-2:]`, the quantity must be
positive, and `exit_ce or exit_pe` must hold. -/
def exitDecision (r : IndRow) (p : Position) : Prop :=
  0 < p.quantity ∧
    ((p.tradingsymbol.takeRight 2 = "CE" ∧ exitCeCond r) ∨
     (p.tradingsymbol.takeRight 2 = "PE" ∧ exitPeCond r))

instance (r : IndRow) (p : Position) : Decidable (exitDecision r p) := by
  unfold exitDecision; infer_instance

/-- Observable side effects of the session: the broker calls and the
audit/notification calls it issues, in order. -/
inductive Effect
| notify
| logExcel (tag : String)
| fetchHistorical
| fetchIntraday (intervalMinutes : Nat)
| fetchOhlc
| updatePnl (number : Nat)
| resampleEff
| indicatorsEff
| fetchPositions
| getOptionKey (optionType : String)
| placeOrder (instrument : String) (quantity : Int) (side : String) (price : ℚ)
| sleepE (seconds : Nat)
deriving DecidableEq, Repr

/-- Effects of the entry branch (lines 407-454): on a buy signal, notify;
if no CE position is open, resolve the CE option and, when resolution
succeeds, place a BUY order of `lots * lot_size` at the latest close and
log it; symmetrically for the sell signal with PE.  `elif` makes the two
branches mutually exclusive. -/
def entryEffects (r : IndRow) (positions : List Position)
    (ceDet peDet : Option OptionDetails) (lots : Nat) : List Effect :=
  if buySignal r then
    Effect.notify ::
      (if hasCePosition positions then []
       else Effect.getOptionKey "CE" ::
         (match ceDet with
          | some od =>
              [Effect.placeOrder od.instrument_key ((lots * od.lot_size : Nat) : Int) "BUY" r.close,
               Effect.logExcel "CE"]
          | none => []))
  else if sellSignal r then
    Effect.notify ::
      (if hasPePosition positions then []
       else Effect.getOptionKey "PE" ::
         (match peDet with
          | some od =>
              [Effect.placeOrder od.instrument_key ((lots * od.lot_size : Nat) : Int) "BUY" r.close,
               Effect.logExcel "PE"]
          | none => []))
  else []

/-- Effects of the exit check for one position (lines 475-480): notify,
place a SELL order for the full quantity at the zero market-price
sentinel, update the P&L log. -/
def exitEffectsFor (r : IndRow) (p : Position) : List Effect :=
  if exitDecision r p then
    [Effect.notify, Effect.placeOrder p.instrument_token p.quantity "SELL" 0,
     Effect.updatePnl 2]
  else []

/-- Effects of the exit loop (lines 457-480), iterating over the fetched
positions snapshot in order. -/
def exitEffects (r : IndRow) (positions : List Position) : List Effect :=
  positions.foldr (fun p acc => exitEffectsFor r p ++ acc) []

/-- Effects of the complete signal-evaluation section (lines 400-480):
one position fetch, then the entry branch, then the exit loop over the
same snapshot. -/
def signalSection (r : IndRow) (positions : List Position)
    (ceDet peDet : Option OptionDetails) (lots : Nat) : List Effect :=
  Effect.fetchPositions :: (entryEffects r positions ceDet peDet lots ++ exitEffects r positions)

/-- Static session parameters together with the two external library
computations the loop applies: `resample` stands for the pandas
`resample(...).agg(...).dropna()` call of lines 348-353 and
`computeIndicators` for the `ta`-based indicator pipeline with its
`dropna` and 25-day filter (lines 374-384); both are third-party code,
so the model takes them as parameters and embeds every branch applied to
their outputs. -/
structure Config where
  interval : Nat
  lots : Nat
  resample : List Candle → List Candle
  computeIndicators : List Candle → List IndRow

/-- Mutable state of the live loop: the two buffers, the `prev_time`
marker of the last incorporated main candle, and the two boundary
timestamps. -/
structure SessionState where
  candleBuffer : List Candle
  liveBuffer : List Candle
  prevTime : Int
  next1min : Int
  nextResample : Int
deriving Repr

/-- External-world responses available to one poll pass: the current
time, the result of `fetch_ohlc_1min_data`, the positions snapshot
`fetch_positions` would return, and the results of
`get_option_instrument_key` for either side. -/
structure LoopEnv where
  now : Int
  fetch1min : Option Candle
  positions : List Position
  ceDetails : Option OptionDetails
  peDetails : Option OptionDetails

/-- Embedding of `resampled[resampled.index > prev_time]` (line 356): the
resampled candles strictly newer than the last incorporated marker.  (An
empty resample result trivially yields no new candles, matching the
`if not resampled.empty` guard of line 355.) -/
def newMainCandles (cfg : Config) (st : SessionState) : List Candle :=
  (cfg.resample st.liveBuffer).filter (fun c => decide (st.prevTime < c.datetime))

/-- The main buffer after the append loop of lines 357-364. -/
def updatedCandleBuffer (cfg : Config) (st : SessionState) : List Candle :=
  populate st.candleBuffer (newMainCandles cfg st)

/-- The `prev_time` marker after lines 365-369: advanced to the newest
appended candle, unchanged when nothing new arrived. -/
def updatedPrevTime (cfg : Config) (st : SessionState) : Int :=
  match (newMainCandles cfg st).getLast? with
  | some c => c.datetime
  | none => st.prevTime

/-- The indicator rows (`df_filtered`) recomputed over the updated main
buffer (lines 374-384). -/
def resampleRows (cfg : Config) (st : SessionState) : List IndRow :=
  cfg.computeIndicators (updatedCandleBuffer cfg st)

/-- Effects of the indicator/evaluation part of the resample branch
(lines 373-480): indicators are recomputed only when the main buffer has
at least 2 candles, and the signal section runs only when at least 2
indicator rows survive; `latest_candle` is the final row. -/
def evaluationEffects (cfg : Config) (st : SessionState) (env : LoopEnv) : List Effect :=
  if 2 ≤ (updatedCandleBuffer cfg st).length then
    Effect.indicatorsEff ::
      (if 2 ≤ (resampleRows cfg st).length then
        match (resampleRows cfg st).getLast? with
        | some latest => signalSection latest env.positions env.ceDetails env.peDetails cfg.lots
        | none => []
      else [])
  else []

/-- State update and effects of the whole resample branch (lines
342-483): P&L valuation pass, resample and guarded incorporation into the
main buffer, marker update, evaluation, and the unconditional advance of
the resample boundary from the current time. -/
def resampleSection (cfg : Config) (st : SessionState) (env : LoopEnv) :
    SessionState × List Effect :=
  ({ candleBuffer := updatedCandleBuffer cfg st
     liveBuffer := st.liveBuffer
     prevTime := updatedPrevTime cfg st
     next1min := st.next1min
     nextResample := roundToNextInterval cfg.interval env.now },
   Effect.updatePnl 1 :: Effect.resampleEff :: evaluationEffects cfg st env)

/-- State update, effects and skip flag of the 1-minute branch (lines
326-340).  On a successful fetch the candle is appended under the
timestamp guard and the 1-minute boundary is advanced from `now`; on a
failed fetch the state is untouched and the skip flag is set,
corresponding to `await asyncio.sleep(5); continue`. -/
def minuteSection (st : SessionState) (env : LoopEnv) :
    SessionState × List Effect × Bool :=
  if st.next1min ≤ env.now then
    match env.fetch1min with
    | some c =>
        ({ st with liveBuffer := guardedAppend st.liveBuffer c
                   next1min := roundToNextInterval 1 env.now },
         [Effect.fetchOhlc], false)
    | none => (st, [Effect.fetchOhlc, Effect.sleepE 5], true)
  else (st, [], false)

/-- Outcome of one pass of the main loop: `closed` means the `break` of
line 324 was taken, `looped` means the loop continues. -/
inductive Outcome
| closed
| looped
deriving DecidableEq, Repr

/-- Result of one poll pass. -/
structure StepResult where
  state : SessionState
  effects : List Effect
  outcome : Outcome

/-- Embedding of one pass of the main live loop (lines 316-485): market
close check, 1-minute branch (whose failed fetch skips the rest of the
pass), resample branch when the boundary is reached and the fine buffer
holds at least `interval` candles, and the 5-second poll sleep. -/
def pollPass (cfg : Config) (st : SessionState) (env : LoopEnv) : StepResult :=
  if marketCloseUs ≤ env.now then
    ⟨st, [Effect.notify, Effect.updatePnl 2], Outcome.closed⟩
  else
    let ms := minuteSection st env
    if ms.2.2 then
      ⟨ms.1, ms.2.1, Outcome.looped⟩
    else
      let st1 := ms.1
      if st1.nextResample ≤ env.now ∧ cfg.interval ≤ st1.liveBuffer.length then
        let r := resampleSection cfg st1 env
        ⟨r.1, ms.2.1 ++ r.2 ++ [Effect.sleepE 5], Outcome.looped⟩
      else
        ⟨st1, ms.2.1 ++ [Effect.sleepE 5], Outcome.looped⟩

/-- External-world responses available to the initialization phase
(lines 199-305): the time at which the session starts, the historical
fetch, and the two optional intraday fetches. -/
structure InitEnv where
  now : Int
  historical : List Candle
  intraday : Option (List Candle)
  intraday1min : Option (List Candle)

/-- Outcome of initialization: the two fatal aborts of lines 214-218 and
262-269, the defensive abort of lines 270-273, or a ready loop state. -/
inductive InitOutcome
| abortEmptyHistorical
| abortInsufficientRows
| abortEmptyBuffer
| ready (st : SessionState)

/-- Embedding of the initialization phase of `start_trading_session`
(lines 199-305): Excel placeholder entry, historical fetch with fatal
abort on an empty frame, population of the main buffer, optional intraday
population of the fine buffer, the initial indicator computation with
fatal abort when fewer than 2 rows survive, the optional 1-minute
intraday population, the seeding of `prev_time` and of both boundaries,
and the start notification. -/
def initSession (cfg : Config) (env : InitEnv) : InitOutcome × List Effect :=
  let e0 : List Effect := [Effect.logExcel "first", Effect.fetchHistorical]
  if env.historical = [] then
    (InitOutcome.abortEmptyHistorical, e0 ++ [Effect.notify])
  else
    let candleBuf := populate [] env.historical
    let afterOpen := marketOpenUs < env.now
    let liveBuf0 := if afterOpen then populate [] (env.intraday.getD []) else []
    let e1 := if afterOpen then e0 ++ [Effect.fetchIntraday cfg.interval] else e0
    if candleBuf = [] then
      (InitOutcome.abortEmptyBuffer, e1 ++ [Effect.notify])
    else
      let rows := cfg.computeIndicators candleBuf
      if 2 ≤ rows.length then
        let prevTime :=
          match candleBuf.getLast? with
          | some c => c.datetime
          | none => marketOpenUs
        let liveBuf1 :=
          if afterOpen then populate liveBuf0 (env.intraday1min.getD []) else liveBuf0
        let e2 := if afterOpen then e1 ++ [Effect.indicatorsEff, Effect.fetchIntraday 1]
                  else e1 ++ [Effect.indicatorsEff]
        (InitOutcome.ready
           { candleBuffer := candleBuf
             liveBuffer := liveBuf1
             prevTime := prevTime
             next1min := roundToNextInterval 1 env.now
             nextResample := roundToNextInterval cfg.interval prevTime },
         e2 ++ [Effect.notify])
      else
        (InitOutcome.abortInsufficientRows, e1 ++ [Effect.indicatorsEff, Effect.notify])

/-- Run the live loop over a finite stream of per-pass environments,
collecting all effects until the stream is exhausted or the market-close
break fires. -/
def runLoop (cfg : Config) : SessionState → List LoopEnv → List Effect
  | _, [] => []
  | st, env :: rest =>
      let r := pollPass cfg st env
      match r.outcome with
      | Outcome.closed => r.effects
      | Outcome.looped => r.effects ++ runLoop cfg r.state rest

/-- Full session run: initialization followed, only when initialization
succeeded, by the live loop. -/
def runSession (cfg : Config) (ienv : InitEnv) (envs : List LoopEnv) : List Effect :=
  match initSession cfg ienv with
  | (InitOutcome.ready st, eff) => eff ++ runLoop cfg st envs
  | (_, eff) => eff

/-- Raw lower band of `calculate_supertrend` (line 66):
`(high + low) / 2 - multiplier * atr`.  The average true range itself
comes from the external `ta` library, so it is taken as an input
series. -/
def rawLowerBand (c : Candle) (atr : ℚ) : ℚ := (c.high + c.low) / 2 - 3 * atr

/-- Raw upper band of `calculate_supertrend` (line 65). -/
def rawUpperBand (c : Candle) (atr : ℚ) : ℚ := (c.high + c.low) / 2 + 3 * atr

/-- Per-candle supertrend state: the bullish/bearish flag
(`supertrend_values[i]`) and the final lower and upper bands at the same
index. -/
structure STState where
  st : Bool
  fl : ℚ
  fu : ℚ
deriving DecidableEq, Repr

/-- One iteration of the loop of `calculate_supertrend` (lines 72-83):
a close above the previous final upper band turns bullish, a close below
the previous final lower band turns bearish, and otherwise the previous
state is carried forward while the band on the active side ratchets
(the final lower band is floored at its previous value in a bullish
carry, the final upper band capped at its previous value in a bearish
carry). -/
def stStep (close rawLo rawHi : ℚ) (prev : STState) : STState :=
  if prev.fu < close then
    { st := true, fl := rawLo, fu := rawHi }
  else if close < prev.fl then
    { st := false, fl := rawLo, fu := rawHi }
  else
    { st := prev.st
      fl := if prev.st = true ∧ rawLo < prev.fl then prev.fl else rawLo
      fu := if prev.st = false ∧ prev.fu < rawHi then prev.fu else rawHi }

/-- The loop of lines 72-83 unrolled over the remaining candles, emitting
the state of every index from 1 on. -/
def stScan : STState → List Candle → List ℚ → List STState
  | s, c :: cs, a :: atrRest =>
      stStep c.close (rawLowerBand c a) (rawUpperBand c a) s ::
        stScan (stStep c.close (rawLowerBand c a) (rawUpperBand c a) s) cs atrRest
  | _, _, _ => []

/-- The full per-index state series of `calculate_supertrend`: index 0 is
bullish by default with the raw bands as final bands (lines 68-70), each
later index follows by `stStep`. -/
def supertrendStates (candles : List Candle) (atr : List ℚ) : List STState :=
  match candles, atr with
  | c :: cs, a :: atrRest =>
      STState.mk true (rawLowerBand c a) (rawUpperBand c a) ::
        stScan (STState.mk true (rawLowerBand c a) (rawUpperBand c a)) cs atrRest
  | _, _ => []

/-- The reported `supertrend` column (line 85): the final lower band
while bullish, the final upper band while bearish. -/
def supertrendValues (candles : List Candle) (atr : List ℚ) : List ℚ :=
  (supertrendStates candles atr).map (fun s => if s.st then s.fl else s.fu)

/-! ## Helper lemmas -/

theorem truncateMicroseconds_of_dvd {t : Int} (h : (1000000 : Int) ∣ t) :
    truncateMicroseconds t = t :=
  Int.ediv_mul_cancel h

theorem million_dvd_marketOpenUs : (1000000 : Int) ∣ marketOpenUs := by
  refine ⟨33300, ?_⟩
  norm_num [marketOpenUs, usPerMinute]

theorem usPerMinute_dvd_marketOpenUs : usPerMinute ∣ marketOpenUs := by
  refine ⟨555, ?_⟩
  norm_num [marketOpenUs, usPerMinute]

theorem million_dvd_intervalStep (m : Nat) (q : Int) :
    (1000000 : Int) ∣ (q + 1) * ((m : Int) * usPerMinute) := by
  refine Dvd.dvd.mul_left ⟨(m : Int) * 60, ?_⟩ _
  norm_num [usPerMinute]
  ring

theorem roundToNextInterval_eq_of_lt (m : Nat) (now : Int) (h : now < marketOpenUs) :
    roundToNextInterval m now = marketOpenUs := by
  rw [roundToNextInterval, if_pos (by omega)]
  exact truncateMicroseconds_of_dvd million_dvd_marketOpenUs

theorem roundToNextInterval_eq_of_le (m : Nat) (now : Int) (h : marketOpenUs ≤ now) :
    roundToNextInterval m now =
      marketOpenUs +
        ((now - marketOpenUs) / ((m : Int) * 60 * 1000000) + 1) *
          ((m : Int) * 60 * 1000000) := by
  rw [roundToNextInterval, if_neg (by omega),
    truncateMicroseconds_of_dvd (dvd_add million_dvd_marketOpenUs (million_dvd_intervalStep m _))]
  have hmu : ((m : Int) * usPerMinute) = (m : Int) * 60 * 1000000 := by
    unfold usPerMinute; ring
  rw [hmu]

theorem lt_roundToNextInterval (m : Nat) (hm : 0 < m) (now : Int) :
    now < roundToNextInterval m now := by
  by_cases hc : now < marketOpenUs
  · rw [roundToNextInterval_eq_of_lt m now hc]
    exact hc
  · push_neg at hc
    rw [roundToNextInterval_eq_of_le m now hc]
    have hd : (0 : Int) < (m : Int) * 60 * 1000000 := by
      have hm' : (0 : Int) < (m : Int) := by exact_mod_cast hm
      positivity
    have := Int.lt_ediv_add_one_mul_self (now - marketOpenUs) hd
    omega

theorem mem_of_getLast?_eq {α : Type} : ∀ {l : List α} {a : α}, l.getLast? = some a → a ∈ l
  | [x], a, h => by
      simp only [List.getLast?_singleton, Option.some.injEq] at h
      simp [h]
  | x :: y :: t, a, h => by
      rw [List.getLast?_cons_cons] at h
      exact List.mem_cons_of_mem x (mem_of_getLast?_eq h)

theorem le_getLast_of_strictlyIncreasing :
    ∀ {buf : List Candle} {last : Candle}, StrictlyIncreasing buf →
      buf.getLast? = some last → ∀ a ∈ buf, a.datetime ≤ last.datetime
  | [x], last, _, hl, a, ha => by
      simp only [List.getLast?_singleton, Option.some.injEq] at hl
      rw [List.mem_singleton] at ha
      rw [ha, hl]
  | x :: y :: t, last, h, hl, a, ha => by
      rw [List.getLast?_cons_cons] at hl
      rcases List.mem_cons.mp ha with rfl | ha'
      · have hlast : last ∈ y :: t := mem_of_getLast?_eq hl
        have hx : ∀ b ∈ y :: t, a.datetime < b.datetime := (List.pairwise_cons.mp h).1
        exact le_of_lt (hx last hlast)
      · exact le_getLast_of_strictlyIncreasing (List.pairwise_cons.mp h).2 hl a ha'

theorem mem_dequeAppend {buf : List Candle} {c a : Candle}
    (h : a ∈ dequeAppend buf c) : a ∈ buf ++ [c] := by
  unfold dequeAppend at h
  dsimp only at h
  split at h
  · exact (List.drop_subset _ _) h
  · exact h

theorem strictlyIncreasing_dequeAppend {buf : List Candle} {c : Candle}
    (h : StrictlyIncreasing (buf ++ [c])) : StrictlyIncreasing (dequeAppend buf c) := by
  unfold dequeAppend
  dsimp only
  split
  · exact h.sublist (List.drop_sublist _ _)
  · exact h

theorem strictlyIncreasing_append_singleton {buf : List Candle} {c : Candle}
    (h : StrictlyIncreasing buf) (hc : ∀ a ∈ buf, a.datetime < c.datetime) :
    StrictlyIncreasing (buf ++ [c]) := by
  refine List.pairwise_append.mpr ⟨h, List.pairwise_singleton _ _, ?_⟩
  intro a ha b hb
  rw [List.mem_singleton] at hb
  rw [hb]
  exact hc a ha

theorem strictlyIncreasing_populate :
    ∀ {rows buf : List Candle}, StrictlyIncreasing buf → StrictlyIncreasing rows →
      (∀ a ∈ buf, ∀ b ∈ rows, a.datetime < b.datetime) →
      StrictlyIncreasing (populate buf rows)
  | [], buf, hb, _, _ => hb
  | r :: rest, buf, hb, hr, hcross => by
      have hstep : StrictlyIncreasing (dequeAppend buf r) :=
        strictlyIncreasing_dequeAppend
          (strictlyIncreasing_append_singleton hb
            (fun a ha => hcross a ha r (List.mem_cons_self r rest)))
      have hrest : StrictlyIncreasing rest := (List.pairwise_cons.mp hr).2
      have hcross' : ∀ a ∈ dequeAppend buf r, ∀ b ∈ rest, a.datetime < b.datetime := by
        intro a ha b hbm
        rcases List.mem_append.mp (mem_dequeAppend ha) with ha' | ha'
        · exact hcross a ha' b (List.mem_cons_of_mem r hbm)
        · rw [List.mem_singleton] at ha'
          rw [ha']
          exact (List.pairwise_cons.mp hr).1 b hbm
      have : populate buf (r :: rest) = populate (dequeAppend buf r) rest := rfl
      rw [this]
      exact strictlyIncreasing_populate hstep hrest hcross'

/-! ## Claims -/

/-- C1: for every interval size in whole minutes and every reference
time, `_round_to_next_interval` returns the daily 09:15 origin itself
when the reference time precedes 09:15, and otherwise returns
origin + (⌊elapsed / (interval_minutes·60)⌋ + 1) · interval_minutes
minutes; the result carries no sub-minute component.  The embedding is a
pure function, so determinism in the two arguments is inherent. -/
theorem roundToNextInterval_spec (m : Nat) (now : Int) (hm : 0 < m) :
    (now < marketOpenUs → roundToNextInterval m now = marketOpenUs) ∧
    (marketOpenUs ≤ now →
      roundToNextInterval m now =
        marketOpenUs +
          ((now - marketOpenUs) / ((m : Int) * 60 * 1000000) + 1) *
            ((m : Int) * 60 * 1000000)) ∧
    roundToNextInterval m now % usPerMinute = 0 := by
  refine ⟨roundToNextInterval_eq_of_lt m now, roundToNextInterval_eq_of_le m now, ?_⟩
  apply Int.emod_eq_zero_of_dvd
  by_cases hc : now < marketOpenUs
  · rw [roundToNextInterval_eq_of_lt m now hc]
    exact usPerMinute_dvd_marketOpenUs
  · push_neg at hc
    rw [roundToNextInterval_eq_of_le m now hc]
    refine dvd_add usPerMinute_dvd_marketOpenUs (Dvd.dvd.mul_left ⟨(m : Int), ?_⟩ _)
    unfold usPerMinute
    ring

theorem roundToNextInterval_spec_witness :
    0 < 5 ∧
      roundToNextInterval 5 (marketOpenUs + 123456789) =
        marketOpenUs +
          (((marketOpenUs + 123456789) - marketOpenUs) / (((5 : Nat) : Int) * 60 * 1000000) + 1) *
            (((5 : Nat) : Int) * 60 * 1000000) ∧
      roundToNextInterval 5 (marketOpenUs - 1) = marketOpenUs :=
  ⟨by norm_num,
   (roundToNextInterval_spec 5 (marketOpenUs + 123456789) (by norm_num)).2.1
     (le_add_of_nonneg_right (by norm_num)),
   (roundToNextInterval_spec 5 (marketOpenUs - 1) (by norm_num)).1 (by omega)⟩

/-- C2 counterexample: the population loops of initialization append with
no timestamp guard.  A buffer whose tail has timestamp 600 accepts an
incoming candle with the same timestamp 600: the buffer grows and its
timestamps are no longer strictly increasing, contradicting the claim
that the guard covers the appends performed while populating the buffers
during initialization. -/
theorem populate_accepts_stale_candle :
    (Candle.mk 600 2 2 2 2).datetime ≤ (Candle.mk 600 1 1 1 1).datetime ∧
    populate [Candle.mk 600 1 1 1 1] [Candle.mk 600 2 2 2 2] =
      [Candle.mk 600 1 1 1 1, Candle.mk 600 2 2 2 2] ∧
    ¬ StrictlyIncreasing (populate [Candle.mk 600 1 1 1 1] [Candle.mk 600 2 2 2 2]) := by
  refine ⟨by decide, by decide, by decide⟩

/-- C2 (amended): the timestamp guard holds for the appends of the live
loop: the guarded 1-minute append of lines 330-335 rejects, leaving the
buffer unchanged, any candle whose timestamp is not strictly greater
than the tail's, and preserves strictly increasing timestamps; the
main-buffer appends of lines 356-364 keep only resampled candles
strictly newer than the `prev_time` marker, so they too preserve
strictly increasing timestamps whenever the marker bounds the buffer's
timestamps from above.  The appends performed while populating the
buffers during initialization are unconditional and are exempt. -/
theorem append_guard_live_loop :
    (∀ (buf : List Candle) (c last : Candle), buf.getLast? = some last →
        c.datetime ≤ last.datetime → guardedAppend buf c = buf) ∧
    (∀ (buf : List Candle) (c : Candle), StrictlyIncreasing buf →
        StrictlyIncreasing (guardedAppend buf c)) ∧
    (∀ (buf rows : List Candle) (prevTime : Int), StrictlyIncreasing buf →
        StrictlyIncreasing rows → (∀ a ∈ buf, a.datetime ≤ prevTime) →
        StrictlyIncreasing
          (populate buf (rows.filter (fun c => decide (prevTime < c.datetime))))) := by
  refine ⟨?_, ?_, ?_⟩
  · intro buf c last hl hle
    simp only [guardedAppend, hl]
    rw [if_neg (not_lt.mpr hle)]
  · intro buf c hb
    cases hl : buf.getLast? with
    | none =>
        have hnil : buf = [] := List.getLast?_eq_none_iff.mp hl
        subst hnil
        show StrictlyIncreasing [c]
        unfold StrictlyIncreasing
        exact List.pairwise_singleton _ _
    | some last =>
        simp only [guardedAppend, hl]
        split
        · refine strictlyIncreasing_dequeAppend
            (strictlyIncreasing_append_singleton hb ?_)
          intro a ha
          calc a.datetime ≤ last.datetime := le_getLast_of_strictlyIncreasing hb hl a ha
            _ < c.datetime := by assumption
        · exact hb
  · intro buf rows prevTime hb hr hbound
    refine strictlyIncreasing_populate hb (hr.sublist (List.filter_sublist rows)) ?_
    intro a ha b hbm
    have hgt : prevTime < b.datetime := of_decide_eq_true (List.mem_filter.mp hbm).2
    exact lt_of_le_of_lt (hbound a ha) hgt

theorem append_guard_live_loop_witness :
    guardedAppend [Candle.mk 100 1 1 1 1] (Candle.mk 100 2 2 2 2) = [Candle.mk 100 1 1 1 1] ∧
    StrictlyIncreasing (guardedAppend [Candle.mk 100 1 1 1 1] (Candle.mk 200 2 2 2 2)) ∧
    StrictlyIncreasing
      (populate [Candle.mk 100 1 1 1 1]
        ([Candle.mk 100 3 3 3 3, Candle.mk 300 4 4 4 4].filter
          (fun c => decide ((100 : Int) < c.datetime)))) :=
  ⟨append_guard_live_loop.1 [Candle.mk 100 1 1 1 1] (Candle.mk 100 2 2 2 2)
     (Candle.mk 100 1 1 1 1) rfl (by decide),
   append_guard_live_loop.2.1 [Candle.mk 100 1 1 1 1] (Candle.mk 200 2 2 2 2) (by decide),
   append_guard_live_loop.2.2 [Candle.mk 100 1 1 1 1]
     [Candle.mk 100 3 3 3 3, Candle.mk 300 4 4 4 4] 100 (by decide) (by decide) (by decide)⟩

/-- C3 counterexample: a poll pass that reaches the 1-minute boundary
(boundary 09:15 ≤ now = 09:16, before market close) but whose 1-minute
fetch fails leaves the boundary exactly where it was: the code advances
`next_interval_end_1min` only inside the successful-fetch branch, so the
boundary is not advanced "regardless of whether the fetch succeeds". -/
theorem minute_boundary_unchanged_on_failed_fetch :
    (SessionState.mk [] [] marketOpenUs marketOpenUs marketOpenUs).next1min ≤
        marketOpenUs + 60000000 ∧
    marketOpenUs + 60000000 < marketCloseUs ∧
    (pollPass (Config.mk 5 1 (fun l => l) (fun _ => []))
        (SessionState.mk [] [] marketOpenUs marketOpenUs marketOpenUs)
        (LoopEnv.mk (marketOpenUs + 60000000) none [] none none)).state.next1min =
      marketOpenUs ∧
    (pollPass (Config.mk 5 1 (fun l => l) (fun _ => []))
        (SessionState.mk [] [] marketOpenUs marketOpenUs marketOpenUs)
        (LoopEnv.mk (marketOpenUs + 60000000) none [] none none)).outcome =
      Outcome.looped :=
  ⟨by decide, by decide, rfl, rfl⟩

/-- C3 (amended): when the live loop reaches a 1-minute boundary, the
next boundary is advanced only when the latest-minute-candle fetch
succeeds; on a failed fetch the state, boundary included, is left
untouched and the pass merely sleeps and continues, so the boundary is
still due and the fetch is retried on the next poll pass; in neither
case does the pass abort the session. -/
theorem minute_boundary_advance_rule (cfg : Config) (st : SessionState) (env : LoopEnv)
    (hclose : env.now < marketCloseUs) (hb : st.next1min ≤ env.now) :
    (env.fetch1min = none →
        pollPass cfg st env =
          ⟨st, [Effect.fetchOhlc, Effect.sleepE 5], Outcome.looped⟩ ∧
        st.next1min ≤ env.now) ∧
    (∀ c, env.fetch1min = some c →
        (pollPass cfg st env).state.next1min = roundToNextInterval 1 env.now ∧
        env.now < (pollPass cfg st env).state.next1min ∧
        (pollPass cfg st env).outcome = Outcome.looped) := by
  constructor
  · intro hf
    refine ⟨?_, hb⟩
    unfold pollPass minuteSection
    rw [if_neg (not_le.mpr hclose), if_pos hb, hf]
    rfl
  · intro c hf
    have hadv : (pollPass cfg st env).state.next1min = roundToNextInterval 1 env.now ∧
        (pollPass cfg st env).outcome = Outcome.looped := by
      unfold pollPass minuteSection
      rw [if_neg (not_le.mpr hclose), if_pos hb, hf]
      dsimp only
      rw [if_neg Bool.false_ne_true]
      constructor
      · split
        · rfl
        · rfl
      · split
        · rfl
        · rfl
    refine ⟨hadv.1, ?_, hadv.2⟩
    rw [hadv.1]
    exact lt_roundToNextInterval 1 (by norm_num) env.now

theorem minute_boundary_advance_rule_witness :
    pollPass (Config.mk 5 1 (fun l => l) (fun _ => []))
        (SessionState.mk [] [] marketOpenUs marketOpenUs marketOpenUs)
        (LoopEnv.mk (marketOpenUs + 60000000) none [] none none) =
      ⟨SessionState.mk [] [] marketOpenUs marketOpenUs marketOpenUs,
       [Effect.fetchOhlc, Effect.sleepE 5], Outcome.looped⟩ ∧
    (pollPass (Config.mk 5 1 (fun l => l) (fun _ => []))
        (SessionState.mk [] [] marketOpenUs marketOpenUs marketOpenUs)
        (LoopEnv.mk (marketOpenUs + 60000000) (some (Candle.mk 1 1 1 1 1)) [] none
          none)).state.next1min =
      roundToNextInterval 1 (marketOpenUs + 60000000) :=
  ⟨((minute_boundary_advance_rule _ _ _ (by decide) (by decide)).1 rfl).1,
   ((minute_boundary_advance_rule _ _ _ (by decide) (by decide)).2 (Candle.mk 1 1 1 1 1) rfl).1⟩

/-- C10: when the 1-minute fetch returns nothing at a 1-minute boundary,
the pass stops after the 5-second sleep of the failure branch: the state
is unchanged and the trace of the pass is exactly the fetch attempt and
the sleep — no valuation pass, no resample, no indicator recomputation,
no position fetch, and no order placement — even when the resample
boundary has also been reached and the fine buffer is long enough. -/
theorem failed_fetch_skips_poll_pass (cfg : Config) (st : SessionState) (env : LoopEnv)
    (hclose : env.now < marketCloseUs) (hb : st.next1min ≤ env.now)
    (hf : env.fetch1min = none) (hr : st.nextResample ≤ env.now)
    (hl : cfg.interval ≤ st.liveBuffer.length) :
    pollPass cfg st env = ⟨st, [Effect.fetchOhlc, Effect.sleepE 5], Outcome.looped⟩ ∧
    (∀ n, Effect.updatePnl n ∉ (pollPass cfg st env).effects) ∧
    Effect.resampleEff ∉ (pollPass cfg st env).effects ∧
    Effect.indicatorsEff ∉ (pollPass cfg st env).effects ∧
    Effect.fetchPositions ∉ (pollPass cfg st env).effects ∧
    ∀ k q s pr, Effect.placeOrder k q s pr ∉ (pollPass cfg st env).effects := by
  have h1 : pollPass cfg st env = ⟨st, [Effect.fetchOhlc, Effect.sleepE 5], Outcome.looped⟩ := by
    unfold pollPass minuteSection
    rw [if_neg (not_le.mpr hclose), if_pos hb, hf]
    rfl
  refine ⟨h1, ?_, ?_, ?_, ?_, ?_⟩
  · intro n
    rw [h1]
    simp
  · rw [h1]
    simp
  · rw [h1]
    simp
  · rw [h1]
    simp
  · intro k q s pr
    rw [h1]
    simp

theorem failed_fetch_skips_poll_pass_witness :
    pollPass (Config.mk 1 1 (fun l => l) (fun _ => []))
        (SessionState.mk [] [Candle.mk 50 1 1 1 1] marketOpenUs marketOpenUs marketOpenUs)
        (LoopEnv.mk (marketOpenUs + 60000000) none [] none none) =
      ⟨SessionState.mk [] [Candle.mk 50 1 1 1 1] marketOpenUs marketOpenUs marketOpenUs,
       [Effect.fetchOhlc, Effect.sleepE 5], Outcome.looped⟩ ∧
    Effect.fetchPositions ∉
      (pollPass (Config.mk 1 1 (fun l => l) (fun _ => []))
        (SessionState.mk [] [Candle.mk 50 1 1 1 1] marketOpenUs marketOpenUs marketOpenUs)
        (LoopEnv.mk (marketOpenUs + 60000000) none [] none none)).effects :=
  ⟨(failed_fetch_skips_poll_pass _ _ _ (by decide) (by decide) rfl (by decide) (by decide)).1,
   (failed_fetch_skips_poll_pass _ _ _ (by decide) (by decide) rfl (by decide)
     (by decide)).2.2.2.2.1⟩

theorem exitEffects_cons (r : IndRow) (p : Position) (rest : List Position) :
    exitEffects r (p :: rest) = exitEffectsFor r p ++ exitEffects r rest := rfl

theorem mem_exitEffects {r : IndRow} :
    ∀ {positions : List Position} {e : Effect}, e ∈ exitEffects r positions →
      e = Effect.notify ∨ e = Effect.updatePnl 2 ∨
        ∃ p, p ∈ positions ∧ exitDecision r p ∧
          e = Effect.placeOrder p.instrument_token p.quantity "SELL" 0
  | [], e, h => absurd h (List.not_mem_nil e)
  | p :: rest, e, h => by
      rw [exitEffects_cons] at h
      rcases List.mem_append.mp h with h1 | h2
      · unfold exitEffectsFor at h1
        split at h1
        · rcases List.mem_cons.mp h1 with rfl | h3
          · exact Or.inl rfl
          · rcases List.mem_cons.mp h3 with rfl | h4
            · exact Or.inr (Or.inr ⟨p, List.mem_cons_self p rest, by assumption, rfl⟩)
            · rcases List.mem_cons.mp h4 with rfl | h5
              · exact Or.inr (Or.inl rfl)
              · exact absurd h5 (List.not_mem_nil e)
        · exact absurd h1 (List.not_mem_nil e)
      · rcases mem_exitEffects h2 with h3 | h3 | ⟨q, hq, hd, he⟩
        · exact Or.inl h3
        · exact Or.inr (Or.inl h3)
        · exact Or.inr (Or.inr ⟨q, List.mem_cons_of_mem p hq, hd, he⟩)

theorem mem_entryEffects {r : IndRow} {positions : List Position}
    {ceDet peDet : Option OptionDetails} {lots : Nat} {e : Effect}
    (h : e ∈ entryEffects r positions ceDet peDet lots) :
    e = Effect.notify ∨ (∃ s, e = Effect.getOptionKey s) ∨ (∃ s, e = Effect.logExcel s) ∨
      ∃ k q pr, e = Effect.placeOrder k q "BUY" pr := by
  unfold entryEffects at h
  split at h
  · rcases List.mem_cons.mp h with rfl | h2
    · exact Or.inl rfl
    · split at h2
      · exact absurd h2 (List.not_mem_nil e)
      · rcases List.mem_cons.mp h2 with rfl | h3
        · exact Or.inr (Or.inl ⟨"CE", rfl⟩)
        · cases ceDet with
          | none => exact absurd h3 (List.not_mem_nil e)
          | some od =>
              rcases List.mem_cons.mp h3 with rfl | h4
              · exact Or.inr (Or.inr (Or.inr ⟨_, _, _, rfl⟩))
              · rcases List.mem_cons.mp h4 with rfl | h5
                · exact Or.inr (Or.inr (Or.inl ⟨"CE", rfl⟩))
                · exact absurd h5 (List.not_mem_nil e)
  · split at h
    · rcases List.mem_cons.mp h with rfl | h2
      · exact Or.inl rfl
      · split at h2
        · exact absurd h2 (List.not_mem_nil e)
        · rcases List.mem_cons.mp h2 with rfl | h3
          · exact Or.inr (Or.inl ⟨"PE", rfl⟩)
          · cases peDet with
            | none => exact absurd h3 (List.not_mem_nil e)
            | some od =>
                rcases List.mem_cons.mp h3 with rfl | h4
                · exact Or.inr (Or.inr (Or.inr ⟨_, _, _, rfl⟩))
                · rcases List.mem_cons.mp h4 with rfl | h5
                  · exact Or.inr (Or.inr (Or.inl ⟨"PE", rfl⟩))
                  · exact absurd h5 (List.not_mem_nil e)
    · exact absurd h (List.not_mem_nil e)

theorem entryEffects_of_buy_hasCe {r : IndRow} {positions : List Position}
    (ceDet peDet : Option OptionDetails) (lots : Nat)
    (hbuy : buySignal r) (hce : hasCePosition positions) :
    entryEffects r positions ceDet peDet lots = [Effect.notify] := by
  unfold entryEffects
  rw [if_pos hbuy, if_pos hce]

/-- C4: in each evaluation cycle, a call entry is signalled exactly when
`adx > adxema`, `willr > -30`, `supertrend < close` and
`macd > macd_signal`; and while the buy signal is active, any BUY order
appearing in the evaluation's effect trace requires that no position
with positive quantity and a CE-suffixed trading symbol was present in
the fetched positions snapshot. -/
theorem buy_call_signal_iff_and_guard (r : IndRow) (positions : List Position)
    (ceDet peDet : Option OptionDetails) (lots : Nat) :
    (buySignal r ↔
      (r.adx > r.adxema ∧ r.willr > -30 ∧ r.supertrend < r.close ∧ r.macd > r.macd_signal)) ∧
    (buySignal r → ∀ k q pr,
      Effect.placeOrder k q "BUY" pr ∈ signalSection r positions ceDet peDet lots →
      ¬ hasCePosition positions) := by
  refine ⟨Iff.rfl, ?_⟩
  intro hbuy k q pr hmem hce
  unfold signalSection at hmem
  rcases List.mem_cons.mp hmem with heq | h2
  · exact Effect.noConfusion heq
  rcases List.mem_append.mp h2 with h3 | h3
  · rw [entryEffects_of_buy_hasCe ceDet peDet lots hbuy hce] at h3
    rcases List.mem_cons.mp h3 with heq | h4
    · exact Effect.noConfusion heq
    · exact absurd h4 (List.not_mem_nil _)
  · rcases mem_exitEffects h3 with heq | heq | ⟨p, -, -, heq⟩
    · exact Effect.noConfusion heq
    · exact Effect.noConfusion heq
    · simp at heq

theorem buy_call_signal_iff_and_guard_witness :
    buySignal (IndRow.mk 2 1 (-10) 5 1 0 10) ∧
    Effect.placeOrder "OPT" 50 "BUY" 10 ∈
      signalSection (IndRow.mk 2 1 (-10) 5 1 0 10) []
        (some (OptionDetails.mk "OPT" 50 100)) none 1 ∧
    ¬ hasCePosition [] :=
  ⟨by decide, by decide,
   (buy_call_signal_iff_and_guard (IndRow.mk 2 1 (-10) 5 1 0 10) []
       (some (OptionDetails.mk "OPT" 50 100)) none 1).2
     (by decide) "OPT" 50 10 (by decide)⟩

/-- C5: a single evaluation never pairs an entry with a conflicting
same-side exit: under the buy-call conditions every disjunct of the
call-exit condition is false, under the buy-put conditions every
disjunct of the put-exit condition is false; and when a call position
with positive quantity is already open, an active buy signal produces
only the notification — no option lookup and no entry order. -/
theorem entry_excludes_same_side_exit (r : IndRow) (positions : List Position)
    (ceDet peDet : Option OptionDetails) (lots : Nat) :
    (buySignal r →
      ¬ (r.willr < -70 ∧ r.supertrend > r.close) ∧
      ¬ (r.willr < -70 ∧ r.macd < r.macd_signal) ∧
      ¬ (r.supertrend > r.close ∧ r.macd < r.macd_signal)) ∧
    (sellSignal r →
      ¬ (r.willr > -30 ∧ r.supertrend < r.close) ∧
      ¬ (r.willr > -30 ∧ r.macd > r.macd_signal) ∧
      ¬ (r.supertrend < r.close ∧ r.macd < r.macd_signal)) ∧
    (hasCePosition positions → buySignal r →
      entryEffects r positions ceDet peDet lots = [Effect.notify]) := by
  refine ⟨?_, ?_, fun hce hbuy => entryEffects_of_buy_hasCe ceDet peDet lots hbuy hce⟩
  · rintro ⟨-, hw, hst, hm⟩
    refine ⟨?_, ?_, ?_⟩
    · rintro ⟨h1, -⟩
      linarith
    · rintro ⟨h1, -⟩
      linarith
    · rintro ⟨h1, -⟩
      linarith
  · rintro ⟨-, hw, hst, hm⟩
    refine ⟨?_, ?_, ?_⟩
    · rintro ⟨h1, -⟩
      linarith
    · rintro ⟨-, h2⟩
      linarith
    · rintro ⟨h1, -⟩
      linarith

theorem entry_excludes_same_side_exit_witness :
    ¬ ((IndRow.mk 2 1 (-10) 5 1 0 10).willr < -70 ∧
        (IndRow.mk 2 1 (-10) 5 1 0 10).supertrend > (IndRow.mk 2 1 (-10) 5 1 0 10).close) ∧
    entryEffects (IndRow.mk 2 1 (-10) 5 1 0 10) [Position.mk 75 "NIFTYCE" "tok"]
        (some (OptionDetails.mk "OPT" 50 100)) none 1 = [Effect.notify] :=
  ⟨((entry_excludes_same_side_exit (IndRow.mk 2 1 (-10) 5 1 0 10)
       [Position.mk 75 "NIFTYCE" "tok"] (some (OptionDetails.mk "OPT" 50 100)) none 1).1
      (by decide)).1,
   (entry_excludes_same_side_exit (IndRow.mk 2 1 (-10) 5 1 0 10)
       [Position.mk 75 "NIFTYCE" "tok"] (some (OptionDetails.mk "OPT" 50 100)) none 1).2.2
     (by decide) (by decide)⟩

/-- C7: for an open put position (PE-suffixed symbol, positive quantity)
the exit decision fires exactly when (willr > -30 and supertrend < close)
or (willr > -30 and macd > macd_signal) or (supertrend < close and
macd < macd_signal) — the third clause pairs band-below-close with
convergence-below-signal, not the naive mirror of the call exit. -/
theorem put_exit_rule (r : IndRow) (p : Position) (hq : 0 < p.quantity)
    (hpe : p.tradingsymbol.takeRight 2 = "PE") :
    exitDecision r p ↔
      ((r.willr > -30 ∧ r.supertrend < r.close) ∨
       (r.willr > -30 ∧ r.macd > r.macd_signal) ∨
       (r.supertrend < r.close ∧ r.macd < r.macd_signal)) := by
  unfold exitDecision exitPeCond
  rw [hpe]
  constructor
  · rintro ⟨-, ⟨hce, -⟩ | ⟨-, hcond⟩⟩
    · exact absurd hce (by decide)
    · exact hcond
  · intro h
    exact ⟨hq, Or.inr ⟨rfl, h⟩⟩

theorem put_exit_rule_witness :
    0 < (Position.mk 75 "NIFTYPE" "tk").quantity ∧
    (Position.mk 75 "NIFTYPE" "tk").tradingsymbol.takeRight 2 = "PE" ∧
    exitDecision (IndRow.mk 2 1 (-10) 5 1 0 10) (Position.mk 75 "NIFTYPE" "tk") :=
  ⟨by decide, by decide,
   (put_exit_rule (IndRow.mk 2 1 (-10) 5 1 0 10) (Position.mk 75 "NIFTYPE" "tk")
       (by decide) (by decide)).mpr (Or.inl ⟨by decide, by decide⟩)⟩

theorem dequeAppend_ne_nil (buf : List Candle) (c : Candle) : dequeAppend buf c ≠ [] := by
  unfold dequeAppend
  dsimp only
  split
  case isTrue h =>
    intro hnil
    have hlen := congrArg List.length hnil
    rw [List.length_drop] at hlen
    simp only [List.length_append, List.length_cons, List.length_nil] at hlen h
    omega
  case isFalse h =>
    simp

theorem populate_ne_nil : ∀ (rows buf : List Candle), rows ≠ [] → populate buf rows ≠ []
  | [], _, h => absurd rfl h
  | r :: rest, buf, _ => by
      show populate (dequeAppend buf r) rest ≠ []
      cases rest with
      | nil => exact dequeAppend_ne_nil buf r
      | cons r2 rest2 =>
          exact populate_ne_nil (r2 :: rest2) (dequeAppend buf r) (List.cons_ne_nil r2 rest2)

/-- C9: in a resample evaluation cycle that reaches the signal
evaluation, the effect trace contains exactly one position fetch, it
precedes every order placement, and every SELL (exit) order placed in
the cycle closes a position of the pre-entry snapshot that satisfied the
exit decision — so a position opened by the cycle's own entry order can
never be selected for exit in that cycle. -/
theorem positions_fetched_once_before_orders (cfg : Config) (st : SessionState) (env : LoopEnv)
    (hbuf : 2 ≤ (updatedCandleBuffer cfg st).length)
    (hrows : 2 ≤ (resampleRows cfg st).length) :
    ∃ pre post latest,
      (resampleSection cfg st env).2 = pre ++ Effect.fetchPositions :: post ∧
      (∀ e ∈ pre, e ≠ Effect.fetchPositions ∧ ∀ k q s p, e ≠ Effect.placeOrder k q s p) ∧
      Effect.fetchPositions ∉ post ∧
      (resampleRows cfg st).getLast? = some latest ∧
      ∀ k q pr, Effect.placeOrder k q "SELL" pr ∈ (resampleSection cfg st env).2 →
        ∃ p, p ∈ env.positions ∧ exitDecision latest p ∧
          p.instrument_token = k ∧ p.quantity = q ∧ pr = 0 := by
  have hne : resampleRows cfg st ≠ [] := by
    intro h
    rw [h] at hrows
    simp at hrows
  obtain ⟨latest, hlast⟩ : ∃ latest, (resampleRows cfg st).getLast? = some latest := by
    cases hl : (resampleRows cfg st).getLast? with
    | none => exact absurd (List.getLast?_eq_none_iff.mp hl) hne
    | some a => exact ⟨a, rfl⟩
  have htrace : (resampleSection cfg st env).2 =
      [Effect.updatePnl 1, Effect.resampleEff, Effect.indicatorsEff] ++
        Effect.fetchPositions ::
          (entryEffects latest env.positions env.ceDetails env.peDetails cfg.lots ++
            exitEffects latest env.positions) := by
    unfold resampleSection evaluationEffects
    rw [if_pos hbuf, if_pos hrows, hlast]
    rfl
  refine ⟨_, _, latest, htrace, ?_, ?_, hlast, ?_⟩
  · intro e he
    rcases List.mem_cons.mp he with rfl | he
    · exact ⟨fun h => Effect.noConfusion h, fun k q s p h => Effect.noConfusion h⟩
    rcases List.mem_cons.mp he with rfl | he
    · exact ⟨fun h => Effect.noConfusion h, fun k q s p h => Effect.noConfusion h⟩
    rcases List.mem_cons.mp he with rfl | he
    · exact ⟨fun h => Effect.noConfusion h, fun k q s p h => Effect.noConfusion h⟩
    · exact absurd he (List.not_mem_nil e)
  · intro hmem
    rcases List.mem_append.mp hmem with h1 | h1
    · rcases mem_entryEffects h1 with heq | ⟨s, heq⟩ | ⟨s, heq⟩ | ⟨k, q, pr, heq⟩ <;>
        exact Effect.noConfusion heq
    · rcases mem_exitEffects h1 with heq | heq | ⟨p, -, -, heq⟩ <;> exact Effect.noConfusion heq
  · intro k q pr hmem
    rw [htrace] at hmem
    rcases List.mem_append.mp hmem with h1 | h1
    · rcases List.mem_cons.mp h1 with heq | h1
      · exact Effect.noConfusion heq
      rcases List.mem_cons.mp h1 with heq | h1
      · exact Effect.noConfusion heq
      rcases List.mem_cons.mp h1 with heq | h1
      · exact Effect.noConfusion heq
      · exact absurd h1 (List.not_mem_nil _)
    · rcases List.mem_cons.mp h1 with heq | h1
      · exact Effect.noConfusion heq
      rcases List.mem_append.mp h1 with h2 | h2
      · rcases mem_entryEffects h2 with heq | ⟨s, heq⟩ | ⟨s, heq⟩ | ⟨k2, q2, pr2, heq⟩
        · exact Effect.noConfusion heq
        · exact Effect.noConfusion heq
        · exact Effect.noConfusion heq
        · simp at heq
      · rcases mem_exitEffects h2 with heq | heq | ⟨p, hp, hd, heq⟩
        · exact Effect.noConfusion heq
        · exact Effect.noConfusion heq
        · injection heq with e1 e2 e3 e4
          exact ⟨p, hp, hd, e1.symm, e2.symm, e4⟩

theorem positions_fetched_once_before_orders_witness :
    2 ≤ (updatedCandleBuffer
          (Config.mk 1 1 (fun l => l)
            (fun _ => [IndRow.mk 2 1 (-10) 5 1 0 10, IndRow.mk 2 1 (-10) 5 1 0 10]))
          (SessionState.mk [Candle.mk 1 1 1 1 1, Candle.mk 2 1 1 1 1] [] 0 0 0)).length ∧
    ∃ pre post latest,
      (resampleSection
          (Config.mk 1 1 (fun l => l)
            (fun _ => [IndRow.mk 2 1 (-10) 5 1 0 10, IndRow.mk 2 1 (-10) 5 1 0 10]))
          (SessionState.mk [Candle.mk 1 1 1 1 1, Candle.mk 2 1 1 1 1] [] 0 0 0)
          (LoopEnv.mk marketOpenUs none [Position.mk 75 "NIFTYPE" "tk"] none none)).2 =
        pre ++ Effect.fetchPositions :: post ∧
      (∀ e ∈ pre, e ≠ Effect.fetchPositions ∧ ∀ k q s p, e ≠ Effect.placeOrder k q s p) ∧
      Effect.fetchPositions ∉ post ∧
      (resampleRows
          (Config.mk 1 1 (fun l => l)
            (fun _ => [IndRow.mk 2 1 (-10) 5 1 0 10, IndRow.mk 2 1 (-10) 5 1 0 10]))
          (SessionState.mk [Candle.mk 1 1 1 1 1, Candle.mk 2 1 1 1 1] [] 0 0 0)).getLast? =
        some latest ∧
      ∀ k q pr, Effect.placeOrder k q "SELL" pr ∈
          (resampleSection
            (Config.mk 1 1 (fun l => l)
              (fun _ => [IndRow.mk 2 1 (-10) 5 1 0 10, IndRow.mk 2 1 (-10) 5 1 0 10]))
            (SessionState.mk [Candle.mk 1 1 1 1 1, Candle.mk 2 1 1 1 1] [] 0 0 0)
            (LoopEnv.mk marketOpenUs none [Position.mk 75 "NIFTYPE" "tk"] none none)).2 →
        ∃ p, p ∈ (LoopEnv.mk marketOpenUs none [Position.mk 75 "NIFTYPE" "tk"] none
            none).positions ∧
          exitDecision latest p ∧ p.instrument_token = k ∧ p.quantity = q ∧ pr = 0 :=
  ⟨by decide,
   positions_fetched_once_before_orders
     (Config.mk 1 1 (fun l => l)
       (fun _ => [IndRow.mk 2 1 (-10) 5 1 0 10, IndRow.mk 2 1 (-10) 5 1 0 10]))
     (SessionState.mk [Candle.mk 1 1 1 1 1, Candle.mk 2 1 1 1 1] [] 0 0 0)
     (LoopEnv.mk marketOpenUs none [Position.mk 75 "NIFTYPE" "tk"] none none)
     (by decide) (by decide)⟩

/-- C8: when the initial historical fetch returns an empty series the
session aborts with the empty-historical outcome, sends the error
notification, and the whole run — initialization and any subsequent loop
activity — contains no order placement at all; the same holds, with the
insufficient-rows outcome, when fewer than 2 indicator rows survive the
initial indicator computation over the populated main buffer. -/
theorem init_abort_places_no_order (cfg : Config) (ienv : InitEnv) (envs : List LoopEnv) :
    (ienv.historical = [] →
        (initSession cfg ienv).1 = InitOutcome.abortEmptyHistorical ∧
        Effect.notify ∈ runSession cfg ienv envs ∧
        ∀ k q s pr, Effect.placeOrder k q s pr ∉ runSession cfg ienv envs) ∧
    (ienv.historical ≠ [] →
      (cfg.computeIndicators (populate [] ienv.historical)).length < 2 →
        (initSession cfg ienv).1 = InitOutcome.abortInsufficientRows ∧
        Effect.notify ∈ runSession cfg ienv envs ∧
        ∀ k q s pr, Effect.placeOrder k q s pr ∉ runSession cfg ienv envs) := by
  constructor
  · intro h
    have hinit : initSession cfg ienv =
        (InitOutcome.abortEmptyHistorical,
         [Effect.logExcel "first", Effect.fetchHistorical, Effect.notify]) := by
      unfold initSession
      rw [if_pos h]
      rfl
    have hrun : runSession cfg ienv envs =
        [Effect.logExcel "first", Effect.fetchHistorical, Effect.notify] := by
      unfold runSession
      rw [hinit]
    refine ⟨by rw [hinit], by rw [hrun]; simp, ?_⟩
    intro k q s pr
    rw [hrun]
    simp
  · intro hne hlen
    have hcb : ¬ (populate [] ienv.historical = []) := populate_ne_nil ienv.historical [] hne
    have hnotle : ¬ 2 ≤ (cfg.computeIndicators (populate [] ienv.historical)).length := by
      omega
    have hinit : initSession cfg ienv =
        (InitOutcome.abortInsufficientRows,
         (if marketOpenUs < ienv.now then
            [Effect.logExcel "first", Effect.fetchHistorical] ++
              [Effect.fetchIntraday cfg.interval]
          else [Effect.logExcel "first", Effect.fetchHistorical]) ++
           [Effect.indicatorsEff, Effect.notify]) := by
      unfold initSession
      dsimp only
      rw [if_neg hne, if_neg hcb, if_neg hnotle]
    have hrun : runSession cfg ienv envs =
        (if marketOpenUs < ienv.now then
            [Effect.logExcel "first", Effect.fetchHistorical] ++
              [Effect.fetchIntraday cfg.interval]
          else [Effect.logExcel "first", Effect.fetchHistorical]) ++
          [Effect.indicatorsEff, Effect.notify] := by
      unfold runSession
      rw [hinit]
    refine ⟨by rw [hinit], ?_, ?_⟩
    · rw [hrun]
      simp
    · intro k q s pr
      rw [hrun]
      split <;> simp

theorem init_abort_places_no_order_witness :
    (initSession (Config.mk 5 1 (fun l => l) (fun _ => [])) (InitEnv.mk 0 [] none none)).1 =
      InitOutcome.abortEmptyHistorical ∧
    Effect.notify ∈
      runSession (Config.mk 5 1 (fun l => l) (fun _ => [])) (InitEnv.mk 0 [] none none) [] ∧
    Effect.placeOrder "K" 1 "BUY" 0 ∉
      runSession (Config.mk 5 1 (fun l => l) (fun _ => [])) (InitEnv.mk 0 [] none none) [] ∧
    (initSession (Config.mk 5 1 (fun l => l) (fun _ => []))
        (InitEnv.mk 0 [Candle.mk 1 1 1 1 1] none none)).1 =
      InitOutcome.abortInsufficientRows :=
  ⟨((init_abort_places_no_order (Config.mk 5 1 (fun l => l) (fun _ => []))
       (InitEnv.mk 0 [] none none) []).1 rfl).1,
   ((init_abort_places_no_order (Config.mk 5 1 (fun l => l) (fun _ => []))
       (InitEnv.mk 0 [] none none) []).1 rfl).2.1,
   ((init_abort_places_no_order (Config.mk 5 1 (fun l => l) (fun _ => []))
       (InitEnv.mk 0 [] none none) []).1 rfl).2.2 "K" 1 "BUY" 0,
   ((init_abort_places_no_order (Config.mk 5 1 (fun l => l) (fun _ => []))
       (InitEnv.mk 0 [Candle.mk 1 1 1 1 1] none none) []).2 (by decide) (by decide)).1⟩

theorem stStep_carry (prev : STState) (close rawLo rawHi : ℚ)
    (h1 : prev.fl < close) (h2 : close < prev.fu) :
    (stStep close rawLo rawHi prev).st = prev.st ∧
    (prev.st = true → prev.fl ≤ (stStep close rawLo rawHi prev).fl) ∧
    (prev.st = false → (stStep close rawLo rawHi prev).fu ≤ prev.fu) := by
  unfold stStep
  rw [if_neg (not_lt.mpr (le_of_lt h2)), if_neg (not_lt.mpr (le_of_lt h1))]
  refine ⟨rfl, ?_, ?_⟩
  · intro hst
    dsimp only
    split
    case isTrue h => exact le_refl _
    case isFalse h =>
      rcases not_and_or.mp h with h' | h'
      · exact absurd hst h'
      · exact not_lt.mp h'
  · intro hst
    dsimp only
    split
    case isTrue h => exact le_refl _
    case isFalse h =>
      rcases not_and_or.mp h with h' | h'
      · exact absurd hst h'
      · exact not_lt.mp h'

theorem stStep_flip (prev : STState) (close rawLo rawHi : ℚ)
    (h : (stStep close rawLo rawHi prev).st ≠ prev.st) :
    (prev.st = true → close < prev.fl) ∧ (prev.st = false → prev.fu < close) := by
  unfold stStep at h
  by_cases h1 : prev.fu < close
  · rw [if_pos h1] at h
    exact ⟨fun hst => absurd hst.symm h, fun _ => h1⟩
  · rw [if_neg h1] at h
    by_cases h2 : close < prev.fl
    · rw [if_pos h2] at h
      exact ⟨fun _ => h2, fun hst => absurd hst.symm h⟩
    · rw [if_neg h2] at h
      exact absurd rfl h

theorem stScan_succ : ∀ (s : STState) (cs : List Candle) (atrRest : List ℚ) (i : Nat)
    {prev cur : STState} {c : Candle} {a : ℚ},
    (s :: stScan s cs atrRest)[i]? = some prev →
    (stScan s cs atrRest)[i]? = some cur →
    cs[i]? = some c → atrRest[i]? = some a →
    cur = stStep c.close (rawLowerBand c a) (rawUpperBand c a) prev
  | _, [], _, _, _, _, _, _, _, _, hc, _ => by simp at hc
  | _, _ :: _, [], _, _, _, _, _, _, _, _, ha => by simp at ha
  | s, c0 :: cs', a0 :: as', 0, prev, cur, c, a, hp, hcur, hc, ha => by
      simp only [stScan, List.getElem?_cons_zero, Option.some.injEq] at hp hcur hc ha
      subst hp
      subst hc
      subst ha
      exact hcur.symm
  | s, c0 :: cs', a0 :: as', (n + 1), prev, cur, c, a, hp, hcur, hc, ha => by
      rw [List.getElem?_cons_succ] at hp hc ha
      simp only [stScan] at hp hcur
      rw [List.getElem?_cons_succ] at hcur
      exact stScan_succ (stStep c0.close (rawLowerBand c0 a0) (rawUpperBand c0 a0) s)
        cs' as' n hp hcur hc ha

/-- C6: along any candle series, the trend band carries its
bullish/bearish state forward unchanged whenever the close lies strictly
between the previous final lower and upper bands; the state flips only
when the close crosses the opposite band; in a bullish carry the final
lower band never decreases and in a bearish carry the final upper band
never increases; and the reported band value at each index is the final
lower band when bullish and the final upper band when bearish. -/
theorem supertrend_carry_and_ratchet (candles : List Candle) (atr : List ℚ) (i : Nat)
    (prev cur : STState) (c : Candle) (a : ℚ)
    (hp : (supertrendStates candles atr)[i]? = some prev)
    (hcur : (supertrendStates candles atr)[i + 1]? = some cur)
    (hc : candles[i + 1]? = some c) (ha : atr[i + 1]? = some a) :
    (prev.fl < c.close → c.close < prev.fu → cur.st = prev.st) ∧
    (cur.st ≠ prev.st →
      (prev.st = true → c.close < prev.fl) ∧ (prev.st = false → prev.fu < c.close)) ∧
    (prev.fl < c.close → c.close < prev.fu → prev.st = true → prev.fl ≤ cur.fl) ∧
    (prev.fl < c.close → c.close < prev.fu → prev.st = false → cur.fu ≤ prev.fu) ∧
    (supertrendValues candles atr)[i + 1]? = some (if cur.st then cur.fl else cur.fu) := by
  have hval : (supertrendValues candles atr)[i + 1]? =
      some (if cur.st then cur.fl else cur.fu) := by
    unfold supertrendValues
    rw [List.getElem?_map, hcur]
    rfl
  have hstep : cur = stStep c.close (rawLowerBand c a) (rawUpperBand c a) prev := by
    cases candles with
    | nil => simp at hc
    | cons c0 cs =>
        cases atr with
        | nil => simp at ha
        | cons a0 as' =>
            simp only [supertrendStates] at hp hcur
            rw [List.getElem?_cons_succ] at hcur hc ha
            exact stScan_succ (STState.mk true (rawLowerBand c0 a0) (rawUpperBand c0 a0))
              cs as' i hp hcur hc ha
  subst hstep
  refine ⟨fun h1 h2 => (stStep_carry prev c.close _ _ h1 h2).1, stStep_flip prev c.close _ _,
    fun h1 h2 => (stStep_carry prev c.close _ _ h1 h2).2.1,
    fun h1 h2 => (stStep_carry prev c.close _ _ h1 h2).2.2, hval⟩

theorem supertrend_carry_and_ratchet_witness :
    (supertrendStates [Candle.mk 0 10 12 8 10, Candle.mk 1 10 12 8 10] [1, 1])[1]? =
      some (STState.mk true 7 13) ∧
    (STState.mk true 7 13).st = (STState.mk true 7 13).st ∧
    (STState.mk true 7 13).fl ≤ (STState.mk true 7 13).fl ∧
    (supertrendValues [Candle.mk 0 10 12 8 10, Candle.mk 1 10 12 8 10] [1, 1])[1]? =
      some 7 := by
  have hp : (supertrendStates [Candle.mk 0 10 12 8 10, Candle.mk 1 10 12 8 10] [1, 1])[0]? =
      some (STState.mk true 7 13) := by
    norm_num [supertrendStates, stScan, stStep, rawLowerBand, rawUpperBand]
  have hcur : (supertrendStates [Candle.mk 0 10 12 8 10, Candle.mk 1 10 12 8 10] [1, 1])[1]? =
      some (STState.mk true 7 13) := by
    norm_num [supertrendStates, stScan, stStep, rawLowerBand, rawUpperBand]
  have h := supertrend_carry_and_ratchet [Candle.mk 0 10 12 8 10, Candle.mk 1 10 12 8 10]
    [1, 1] 0 (STState.mk true 7 13) (STState.mk true 7 13) (Candle.mk 1 10 12 8 10) 1
    hp hcur rfl rfl
  refine ⟨hcur, h.1 (by norm_num) (by norm_num),
    h.2.2.1 (by norm_num) (by norm_num) rfl, ?_⟩
  rw [h.2.2.2.2]
  rfl
